import Mathlib

/-!
Verification of the MADNESS derivative engine (`src/lib/mra/derivative.h`):
boundary-condition validation, neighbor resolution with boundary-condition
enforcement, the distributed tree-traversal dispatch, and the differencing
operator.  Machine integers are modelled as `Int`/`Nat`; tensor blocks are
modelled as rational-valued index functions; fatal `MADNESS_EXCEPTION` /
`MADNESS_ASSERT` paths are modelled with `Except`.
-/

namespace Madness

/-! ## Boundary conditions (`BoundaryConds`) -/

/-- Model of `Tensor<int>` as used by `BoundaryConds`: the number of
dimensions reported by `ndim()`, the extents `dim(0)`/`dim(1)`, and the
entry accessor `bc(i,j)`. -/
structure IntTensor2 where
  ndim : Nat
  dim0 : Nat
  dim1 : Nat
  entry : Nat → Nat → Int

/-- `BoundaryConds::is_valid_bc_code`: a code is valid iff it lies in `[0,5]`. -/
def is_valid_bc_code (code : Int) : Bool :=
  decide (0 ≤ code) && decide (code ≤ 5)

/-- `BoundaryConds::is_valid_bc`: shape must be `NDIM x 2` with `ndim()==2`;
each row must hold valid codes; and a row whose left code is periodic (1)
must have a periodic right code. -/
def is_valid_bc (NDIM : Nat) (bc : IntTensor2) : Bool :=
  if bc.dim0 ≠ NDIM || bc.dim1 ≠ 2 || bc.ndim ≠ 2 then false
  else
    (List.range NDIM).all fun i =>
      (is_valid_bc_code (bc.entry i 0) && is_valid_bc_code (bc.entry i 1)) &&
      !(bc.entry i 0 == 1 && bc.entry i 1 != 1)

/-- `BoundaryConds::BoundaryConds(const Tensor<int>&)`: stores a copy of the
tensor, throwing `MADNESS_EXCEPTION` exactly when `is_valid_bc` rejects it. -/
def BoundaryConds.ofTensor (NDIM : Nat) (bc : IntTensor2) : Except String IntTensor2 :=
  if is_valid_bc NDIM bc then .ok bc
  else .error "BoundaryConds: invalid boundary condition"

/-- The validity predicate exactly as the specification words it: shape is
`NDIM x 2`, every code lies in `[0,5]`, and if either side of a dimension is
periodic then both sides of that dimension are periodic. -/
def spec_valid_bc (NDIM : Nat) (bc : IntTensor2) : Bool :=
  (bc.ndim == 2 && bc.dim0 == NDIM && bc.dim1 == 2) &&
  (List.range NDIM).all fun i =>
    (is_valid_bc_code (bc.entry i 0) && is_valid_bc_code (bc.entry i 1)) &&
    (!(bc.entry i 0 == 1 || bc.entry i 1 == 1) ||
      (bc.entry i 0 == 1 && bc.entry i 1 == 1))

/-- A one-dimensional boundary tensor whose left code is free (2) and whose
right code is periodic (1): periodicity is unpaired, yet only the left side
is inspected by the validator. -/
def bcHalfPeriodic : IntTensor2 :=
  ⟨2, 1, 2, fun _ j => if j = 1 then 1 else 2⟩

/-! ## Keys and neighbor resolution (`TreeTraversal`) -/

/-- Model of `Key<NDIM>`: a refinement level and a translation vector.
The `Key<NDIM>::invalid()` sentinel is modelled as `none : Option (Key D)`. -/
structure Key (D : Nat) where
  level : Nat
  transl : Fin D → Int

/-- `TreeTraversal::enforce_bc`: clamps or wraps a translation `l` at level
`n` according to the left/right boundary codes.  `.ok none` models returning
`false` (no neighbor), `.ok (some l)` models returning `true` with the
(possibly wrapped) translation, and `.error code` models the fatal
`MADNESS_EXCEPTION` / failed `MADNESS_ASSERT` paths. -/
def enforce_bc (bc_left bc_right : Int) (n : Nat) (l : Int) : Except Int (Option Int) :=
  if l < 0 then
    if bc_left = 0 ∨ bc_left = 2 ∨ bc_left = 3 ∨ bc_left = 4 ∨ bc_left = 5 then
      .ok none
    else if bc_left = 1 then
      if bc_left = bc_right then .ok (some (l + 2 ^ n)) else .error bc_left
    else
      .error bc_left
  else if (2:Int) ^ n ≤ l then
    if bc_right = 0 ∨ bc_right = 2 ∨ bc_right = 3 ∨ bc_right = 4 ∨ bc_right = 5 then
      .ok none
    else if bc_right = 1 then
      if bc_left = bc_right then .ok (some (l - 2 ^ n)) else .error bc_right
    else
      .error bc_right
  else
    .ok (some l)

/-- `TreeTraversal::neighbor`: steps the translation along the operator axis
and applies `enforce_bc`; returns the invalid sentinel (`none`) when the
boundary absorbs the step.  The by-reference update of `l[axis]` inside
`enforce_bc` is expressed as a single update of the axis coordinate with the
translation value `enforce_bc` leaves behind. -/
def neighbor {D : Nat} (bcl bcr : Int) (axis : Fin D) (key : Key D) (step : Int) :
    Except Int (Option (Key D)) :=
  match enforce_bc bcl bcr key.level (key.transl axis + step) with
  | .error e => .error e
  | .ok none => .ok none
  | .ok (some la) => .ok (some ⟨key.level, Function.update key.transl axis la⟩)

/-- Two consecutive neighbor steps; used to state the round-trip law. -/
def neighbor2 {D : Nat} (bcl bcr : Int) (axis : Fin D) (key : Key D) (s1 s2 : Int) :
    Except Int (Option (Key D)) :=
  match neighbor bcl bcr axis key s1 with
  | .error e => .error e
  | .ok none => .ok none
  | .ok (some k1) => neighbor bcl bcr axis k1 s2

/-! ## Coefficient blocks and tensors

`Tensor<T>` lives in the external numeric library (`tensor/tensor.h` is not
part of this core); the spec treats it as "a given numeric library" with
build/contract/outer-product/scale primitives.  A full coefficient block of
shape `(k,...,k)` is modelled as a rational-valued function of its `NDIM`
indices, and the contraction/permutation primitives are modelled from the
spec's description of those collaborators. -/

/-- A dense coefficient block of shape `k^D`, as an index function. -/
def Blk (k D : Nat) : Type := (Fin D → Fin k) → ℚ

/-- A square `k x k` stencil matrix. -/
def Mat (k : Nat) : Type := Fin k → Fin k → ℚ

/-- A `Tensor<T>` as passed around by the traversal: either the default
(empty, `size()==0`) tensor `tensorT()` or a full `k^D` block. -/
inductive CoeffT (k D : Nat) where
  | empty
  | full (b : Blk k D)

/-- `Tensor::size()`: number of elements (0 for the default tensor,
`k^D` for a full block). -/
def CoeffT.size {k D : Nat} : CoeffT k D → Nat
  | .empty => 0
  | .full _ => k ^ D

/-- The zero-filled block `tensorT(vk)` with `vk = (k,...,k)`. -/
def zeroBlk (k D : Nat) : Blk k D := fun _ => 0

/-- Modelled from the spec: `inner(A, B, 1, 0)` of the external numeric
collaborator, contracting dimension 1 of the matrix `A` with dimension 0 of
the block `B`. -/
def innerMat {k D : Nat} [NeZero D] (A : Mat k) (B : Blk k D) : Blk k D :=
  fun v => ∑ j : Fin k, A (v 0) j * B (Function.update v 0 j)

/-- Modelled from the spec: `Tensor::swapdim(axis, 0)` of the external
numeric collaborator, exchanging dimensions `axis` and 0. -/
def Blk.swapA {k D : Nat} [NeZero D] (axis : Fin D) (B : Blk k D) : Blk k D :=
  fun v => B (v ∘ Equiv.swap axis 0)

/-- Pointwise sum; models `inner_result(A, B, 1, 0, d)` accumulating into `d`. -/
def Blk.add {k D : Nat} (X Y : Blk k D) : Blk k D := fun v => X v + Y v

/-- `Tensor::scale(c)`: multiply every element by `c`. -/
def Blk.scale {k D : Nat} (X : Blk k D) (c : ℚ) : Blk k D := fun v => X v * c

/-- A destination-tree node as written by `replace_coeff`: the
`FunctionNode(coeff, has_children)` pair. -/
structure DNode (k D : Nat) where
  coeff : CoeffT k D
  isInternal : Bool

/-- `argT = std::pair<keyT, tensorT>`: a resolved neighbor address (possibly
the invalid sentinel) together with its coefficient tensor. -/
def ArgT (k D : Nat) : Type := Option (Key D) × CoeffT k D

/-! ## Tree traversal dispatch (`forward_do_diff1`, `do_diff1`) -/

/-- The action `forward_do_diff1` schedules: re-issue the unresolved left or
right lookup through `do_diff1`, run the boundary path `do_diff2b`, run the
interior path `do_diff2i`, or forward the whole task to the owning worker. -/
inductive Dispatch where
  | recurLeft
  | recurRight
  | diff2b
  | diff2i
  | forwardToOwner
deriving DecidableEq

/-- `TreeTraversal::forward_do_diff1`, reduced to the dispatch decision it
makes; the distributed runtime (task queues, owners) is external, so the
test `owner == world.rank()` is a boolean parameter. -/
def forward_do_diff1 {k D : Nat} (ownerIsMe : Bool)
    (left _center right : ArgT k D) : Dispatch :=
  if ownerIsMe then
    if left.2.size = 0 then .recurLeft
    else if right.2.size = 0 then .recurRight
    else if left.1.isNone || right.1.isNone then .diff2b
    else .diff2i
  else .forwardToOwner

/-- Modelled from the spec: `KeyChildIterator<NDIM>` (from the external
`mra/key.h`) enumerates the `2^D` children of `(n, l)`, namely
`(n+1, 2*l + d)` for every `d` in `{0,1}^D`. -/
def children {D : Nat} (key : Key D) : List (Key D) :=
  (List.range (2 ^ D)).map fun m =>
    ⟨key.level + 1, fun i => 2 * key.transl i + ((m >>> i.val) % 2 : Nat)⟩

/-- The effect of `TreeTraversal::do_diff1`: the node written at `key` (if
any) and the list of `forward_do_diff1` invocations it makes, each recorded
as `(key, left, center, right)`. -/
structure Diff1Out (k D : Nat) where
  stored : Option (DNode k D)
  calls : List (Key D × ArgT k D × ArgT k D × ArgT k D)

/-- `TreeTraversal::do_diff1`: if either flank is still empty, mark the
destination node internal/empty and recur into the children (parity along
the axis decides which flank each child inherits); otherwise forward the
resolved triple unchanged. -/
def do_diff1 {k D : Nat} (axis : Fin D) (key : Key D)
    (left center right : ArgT k D) : Diff1Out k D :=
  if left.2.size = 0 ∨ right.2.size = 0 then
    { stored := some ⟨.empty, true⟩
      calls := (children key).map fun child =>
        if child.transl axis % 2 = 0 then (child, left, center, center)
        else (child, center, center, right) }
  else
    { stored := none, calls := [(key, left, center, right)] }

/-- The value of a `find_neighbor` call: an already-fulfilled future (for an
out-of-domain neighbor) or an asynchronous `sock_it_to_me` lookup forwarded
to the owner of the resolved address. -/
inductive FindNbr (k D : Nat) where
  | immediate (a : ArgT k D)
  | remote (neigh : Key D)

/-- `TreeTraversal::find_neighbor`: resolve the neighbor address; an invalid
address yields an immediately-ready pair of the invalid key and the
zero-filled full-shape tensor `tensorT(vk)`, otherwise the lookup is sent to
the owner of the address. -/
def find_neighbor (k : Nat) {D : Nat} (bcl bcr : Int) (axis : Fin D) (key : Key D)
    (step : Int) : Except Int (FindNbr k D) :=
  match neighbor bcl bcr axis key step with
  | .error e => .error e
  | .ok none => .ok (.immediate (none, .full (zeroBlk k D)))
  | .ok (some nb) => .ok (.remote nb)

/-! ## The differencing operator (`Derivative`) -/

/-- The immutable per-operator state of `Derivative<T,NDIM>`: the axis, the
boundary codes `bc(axis,0)`/`bc(axis,1)` along it, the stencil matrices and
boundary-value vectors built by `initCoefficients`, and the external
collaborators: the reciprocal cell widths
`FunctionDefaults<NDIM>::get_rcell_width()`, the parent-to-child refinement
`FunctionImpl::parent_to_child` (modelled from the spec as an abstract
resampling of a block from the address it was found at to the requested
address), and the coefficient blocks of the boundary-value functions
`g1`/`g2` as returned by `find_me` (modelled from the spec as lookup
functions). -/
structure DerivCtx (k D : Nat) where
  axis : Fin D
  bcl : Int
  bcr : Int
  rcw : Fin D → ℚ
  p2c : CoeffT k D → Option (Key D) → Option (Key D) → Blk k D
  rm : Mat k
  r0 : Mat k
  rp : Mat k
  left_rm : Mat k
  left_r0 : Mat k
  right_r0 : Mat k
  right_rp : Mat k
  bv_left : Fin k → ℚ
  bv_right : Fin k → ℚ
  g1 : Key D → Blk k D
  g2 : Key D → Blk k D

/-- `Derivative::do_diff2i`: the interior stencil.  Returns the
`replace_coeff` write it performs, a leaf node at `key`. -/
def do_diff2i {k D : Nat} [NeZero D] (c : DerivCtx k D) (key : Key D)
    (left center right : ArgT k D) : Except Int (Key D × DNode k D) :=
  match neighbor c.bcl c.bcr c.axis key (-1) with
  | .error e => .error e
  | .ok nl =>
    match neighbor c.bcl c.bcr c.axis key 1 with
    | .error e => .error e
    | .ok nr =>
      let d3 := ((innerMat c.rp ((c.p2c left.2 left.1 nl).swapA c.axis)).add
        (innerMat c.r0 ((c.p2c center.2 center.1 (some key)).swapA c.axis))).add
        (innerMat c.rm ((c.p2c right.2 right.1 nr).swapA c.axis))
      let d4 := if c.axis = 0 then d3 else d3.swapA c.axis
      .ok (key, ⟨.full (d4.scale (c.rcw c.axis * 2 ^ key.level)), false⟩)

/-- Modelled from the spec: the boundary contribution block.  The external
tensor primitives (`outer`, the first-order slice `inner(slice_aid, g, 0,
axis)` and the `cycledim` re-ordering; for `NDIM==1` simply `gcoeffs[0]*bf`)
project the boundary-value coefficients `g` through the boundary vector
`bf`: the entry at multi-index `v` is `bf (v axis)` times `g` at `v` with
the axis index replaced by 0. -/
def bdryBlock {k D : Nat} [NeZero k] (axis : Fin D) (bf : Fin k → ℚ) (g : Blk k D) :
    Blk k D :=
  fun v => bf (v axis) * g (Function.update v axis 0)

/-- The observable effect of `Derivative::do_diff2b`: the first
`replace_coeff` write (the one-sided stencil result `d`), whether the
boundary-value functions `g1`/`g2` were consulted through `find_me`, and the
second `replace_coeff` write (stencil plus boundary contribution) if the
function did not return early. -/
structure Diff2bOut (k D : Nat) where
  store1 : Key D × DNode k D
  queriedG1 : Bool
  queriedG2 : Bool
  store2 : Option (Key D × DNode k D)

/-- `Derivative::do_diff2b`: the boundary stencil (left edge when the
translation along the axis is 0, right edge otherwise), followed by the
boundary-value contribution, which is skipped (early `return`) when the
edge's code is periodic (1) or free (2). -/
def do_diff2b {k D : Nat} [NeZero D] [NeZero k] (c : DerivCtx k D) (key : Key D)
    (left center right : ArgT k D) : Except Int (Diff2bOut k D) :=
  match (if key.transl c.axis = 0 then neighbor c.bcl c.bcr c.axis key 1
    else neighbor c.bcl c.bcr c.axis key (-1)) with
  | .error e => .error e
  | .ok nbr =>
    let d0 :=
      if key.transl c.axis = 0 then
        (innerMat c.left_rm ((c.p2c right.2 right.1 nbr).swapA c.axis)).add
          (innerMat c.left_r0 ((c.p2c center.2 center.1 (some key)).swapA c.axis))
      else
        (innerMat c.right_rp ((c.p2c left.2 left.1 nbr).swapA c.axis)).add
          (innerMat c.right_r0 ((c.p2c center.2 center.1 (some key)).swapA c.axis))
    let d := (if c.axis = 0 then d0 else d0.swapA c.axis).scale
      (c.rcw c.axis * 2 ^ key.level)
    let store1 : Key D × DNode k D := (key, ⟨.full d, false⟩)
    if key.transl c.axis = 0 then
      if c.bcl ≠ 1 ∧ c.bcl ≠ 2 then
        let bdry0 := (bdryBlock c.axis c.bv_left (c.g1 key)).scale (c.rcw c.axis)
        let bdry := if c.bcl = 3 then bdry0.scale (2 ^ key.level) else bdry0
        .ok ⟨store1, true, false, some (key, ⟨.full (bdry.add d), false⟩)⟩
      else
        .ok ⟨store1, false, false, none⟩
    else
      if c.bcr ≠ 1 ∧ c.bcr ≠ 2 then
        let bdry0 := (bdryBlock c.axis c.bv_right (c.g2 key)).scale (c.rcw c.axis)
        let bdry := if c.bcr = 3 then bdry0.scale (2 ^ key.level) else bdry0
        .ok ⟨store1, false, true, some (key, ⟨.full (bdry.add d), false⟩)⟩
      else
        .ok ⟨store1, false, false, none⟩

/-! ## The public operator (scalar and vector forms) -/

/-- A source-tree node: `FunctionNode::has_coeff()` and its coefficients. -/
structure SrcNode (k D : Nat) where
  hasCoeff : Bool
  coeff : Blk k D

/-- A source function as the traversal sees it: its representation flag
`is_compressed()` and its coefficient container (the external distributed
key-value store, modelled as an association list). -/
structure SrcFn (k D : Nat) where
  compressed : Bool
  coeffs : List (Key D × SrcNode k D)

/-- The work issued by `TreeTraversal::impldiff`: one `do_diff1` task per
node holding coefficients (recorded by key and center block; the flanking
lookups are issued by `find_neighbor`), one internal/empty destination write
per coefficient-free node, and a terminal fence iff requested. -/
structure ImpldiffOut (k D : Nat) where
  tasks : List (Key D × Blk k D)
  writes : List (Key D × DNode k D)
  fenced : Bool

/-- `TreeTraversal::impldiff`: iterate the source coefficients, scheduling a
differencing task for each node with coefficients and inserting an
internal/empty destination node for the rest; fence at the end iff asked. -/
def impldiff {k D : Nat} (f : SrcFn k D) (fence : Bool) : ImpldiffOut k D :=
  { tasks := f.coeffs.filterMap fun kn =>
      if kn.2.hasCoeff then some (kn.1, kn.2.coeff) else none
    writes := f.coeffs.filterMap fun kn =>
      if kn.2.hasCoeff then none else some (kn.1, ⟨CoeffT.empty, true⟩)
    fenced := fence }

/-- `TreeTraversal::operator()(const functionT&, bool)`: reject a compressed
source unless fencing is allowed (in which case it is reconstructed first),
then run `impldiff`.  Returns the source function as left behind (its only
mutation being the forced reconstruction) together with the issued work. -/
def derivOp {k D : Nat} (f : SrcFn k D) (fence : Bool) :
    Except Unit (SrcFn k D × ImpldiffOut k D) :=
  if f.compressed then
    if fence then
      let f1 : SrcFn k D := { f with compressed := false }
      .ok (f1, impldiff f1 fence)
    else
      .error ()
  else
    .ok (f, impldiff f fence)

/-- Fence events of the vector form: the per-chunk intermediate fence and
the terminal fence. -/
inductive VEv where
  | chunkFence
  | finalFence
deriving DecidableEq

/-- The loop body of the vector form, carrying the element index `i`; the
chunk bound `VMRA_CHUNK_SIZE` lives in the external `mra/vmra.h` and is a
parameter here.  Each element is differentiated with `fence=false`, and an
intermediate fence is issued after every chunk. -/
def derivOpVecAux {k D : Nat} (chunk : Nat) :
    List (SrcFn k D) → Nat →
    Except Unit (List (SrcFn k D × ImpldiffOut k D) × List VEv)
  | [], _ => .ok ([], [])
  | f :: rest, i =>
    match derivOp f false with
    | .error e => .error e
    | .ok r =>
      match derivOpVecAux chunk rest (i + 1) with
      | .error e => .error e
      | .ok (rs, evs) =>
        .ok (r :: rs, (if (i + 1) % chunk = 0 then [VEv.chunkFence] else []) ++ evs)

/-- `TreeTraversal::operator()(std::vector<functionT>, bool)`: apply the
scalar form per element with `fence=false`, fencing after every
`VMRA_CHUNK_SIZE` elements, and fence at the end iff `fence` is set. -/
def derivOpVec {k D : Nat} (chunk : Nat) (vf : List (SrcFn k D)) (fence : Bool) :
    Except Unit (List (SrcFn k D × ImpldiffOut k D) × List VEv) :=
  match derivOpVecAux chunk vf 0 with
  | .error e => .error e
  | .ok (rs, evs) => .ok (rs, evs ++ if fence then [VEv.finalFence] else [])

/-- The fence positions the spec predicts for the vector form: one
intermediate fence after every completed chunk of `chunk` elements,
independent of the terminal-fence flag. -/
def chunkTrace (chunk start len : Nat) : List VEv :=
  (List.range len).filterMap fun j =>
    if (start + j + 1) % chunk = 0 then some VEv.chunkFence else none

/-! ## Concrete sample inputs used by the witness theorems -/

/-- A concrete one-dimensional key at level 1 with translation 0. -/
def key0 : Key 1 := ⟨1, fun _ => 0⟩

/-- A concrete one-dimensional key at level 0 with translation 0. -/
def key00 : Key 1 := ⟨0, fun _ => 0⟩

/-- The only axis of a one-dimensional domain. -/
def ax0 : Fin 1 := 0

/-- The right neighbor of `key0` inside the level-1 domain. -/
def key1 : Key 1 := ⟨1, Function.update key0.transl ax0 1⟩

/-- A concrete one-dimensional operator context with zero-Dirichlet codes,
zero stencils and an identity parent-to-child refinement. -/
def ctx0 : DerivCtx 1 1 where
  axis := ax0
  bcl := 0
  bcr := 0
  rcw := fun _ => 1
  p2c := fun t _ _ => match t with | .empty => zeroBlk 1 1 | .full b => b
  rm := fun _ _ => 0
  r0 := fun _ _ => 0
  rp := fun _ _ => 0
  left_rm := fun _ _ => 0
  left_r0 := fun _ _ => 0
  right_r0 := fun _ _ => 0
  right_rp := fun _ _ => 0
  bv_left := fun _ => 0
  bv_right := fun _ => 0
  g1 := fun _ => zeroBlk 1 1
  g2 := fun _ => zeroBlk 1 1

/-! ## Theorems -/

/-- Per-row characterization of the validator's body. -/
lemma bc_row_iff (e0 e1 : Int) :
    ((is_valid_bc_code e0 && is_valid_bc_code e1) && !(e0 == 1 && e1 != 1)) = true ↔
    (0 ≤ e0 ∧ e0 ≤ 5 ∧ 0 ≤ e1 ∧ e1 ≤ 5 ∧ (e0 = 1 → e1 = 1)) := by
  simp only [is_valid_bc_code, Bool.and_eq_true, decide_eq_true_eq, Bool.not_eq_true',
    Bool.and_eq_false_iff, beq_eq_false_iff_ne, ne_eq, bne_eq_false_iff_eq]
  tauto

/-- Claim C1 (counterexample): the validator accepts a `1 x 2` tensor whose
left code is free (2) and whose right code is periodic (1), although the
specification's pairing invariant (either side periodic forces both sides
periodic) rejects it; thus "accepts iff shape, codes and pairing hold" is
false at this input. -/
theorem is_valid_bc_claim_counterexample :
    is_valid_bc 1 bcHalfPeriodic = true ∧ spec_valid_bc 1 bcHalfPeriodic = false := by
  decide

/-- Claim C1 (amended): `is_valid_bc` accepts exactly when the shape is
`NDIM x 2`, every code lies in `[0,5]`, and for every dimension a periodic
left side forces a periodic right side (the code checks the pairing in that
one direction only); and the tensor-taking `BoundaryConds` constructor
throws exactly when `is_valid_bc` rejects. -/
theorem is_valid_bc_characterization (NDIM : Nat) (bc : IntTensor2) :
    (is_valid_bc NDIM bc = true ↔
      (bc.ndim = 2 ∧ bc.dim0 = NDIM ∧ bc.dim1 = 2 ∧
        ∀ i < NDIM, 0 ≤ bc.entry i 0 ∧ bc.entry i 0 ≤ 5 ∧
          0 ≤ bc.entry i 1 ∧ bc.entry i 1 ≤ 5 ∧
          (bc.entry i 0 = 1 → bc.entry i 1 = 1))) ∧
    (BoundaryConds.ofTensor NDIM bc = .error "BoundaryConds: invalid boundary condition"
      ↔ is_valid_bc NDIM bc = false) := by
  constructor
  · by_cases hsh : bc.dim0 = NDIM ∧ bc.dim1 = 2 ∧ bc.ndim = 2
    · obtain ⟨h1, h2, h3⟩ := hsh
      have hguard : ¬ (bc.dim0 ≠ NDIM || bc.dim1 ≠ 2 || bc.ndim ≠ 2 : Bool) = true := by
        simp [h1, h2, h3]
      rw [is_valid_bc, if_neg hguard]
      simp only [List.all_eq_true, List.mem_range, bc_row_iff]
      simp [h1, h2, h3]
    · have hguard : (bc.dim0 ≠ NDIM || bc.dim1 ≠ 2 || bc.ndim ≠ 2 : Bool) = true := by
        by_contra h
        simp only [Bool.or_eq_true, decide_eq_true_eq, not_or] at h
        push_neg at h
        exact hsh ⟨h.1.1, h.1.2, h.2⟩
      rw [is_valid_bc, if_pos hguard]
      constructor
      · intro h; exact absurd h (by simp)
      · rintro ⟨h3, h1, h2, -⟩; exact absurd ⟨h1, h2, h3⟩ hsh
  · unfold BoundaryConds.ofTensor
    split <;> rename_i h <;> simp [h]

/-- Claim C2: on the owning worker, once neither flank is an empty block,
`forward_do_diff1` dispatches to the boundary path exactly when the left or
right resolved address is the invalid sentinel, and to the interior path
otherwise. -/
theorem forward_do_diff1_dispatch {k D : Nat} (left center right : ArgT k D)
    (hl : left.2.size ≠ 0) (hr : right.2.size ≠ 0) (_hc : center.2.size ≠ 0) :
    (forward_do_diff1 true left center right = .diff2b ↔
      (left.1 = none ∨ right.1 = none)) ∧
    (forward_do_diff1 true left center right = .diff2i ↔
      ¬(left.1 = none ∨ right.1 = none)) := by
  rw [forward_do_diff1, if_pos rfl, if_neg hl, if_neg hr]
  by_cases hb : (left.1.isNone || right.1.isNone : Bool) = true
  · rw [if_pos hb]
    simp only [Bool.or_eq_true, Option.isNone_iff_eq_none] at hb
    simp [hb]
  · rw [if_neg hb]
    simp only [Bool.or_eq_true, Option.isNone_iff_eq_none] at hb
    simp [hb]

/-- Witness for claim C2: a concrete boundary triple (invalid left flank,
genuine center and right blocks) is dispatched to `do_diff2b`. -/
theorem forward_do_diff1_dispatch_witness :
    (forward_do_diff1 true ((none, .full (zeroBlk 1 1)) : ArgT 1 1)
        (some key0, .full (zeroBlk 1 1)) (some key0, .full (zeroBlk 1 1)) = .diff2b ↔
      ((none : Option (Key 1)) = none ∨ (some key0 : Option (Key 1)) = none)) ∧
    (forward_do_diff1 true ((none, .full (zeroBlk 1 1)) : ArgT 1 1)
        (some key0, .full (zeroBlk 1 1)) (some key0, .full (zeroBlk 1 1)) = .diff2i ↔
      ¬(((none : Option (Key 1)) = none ∨ (some key0 : Option (Key 1)) = none))) :=
  forward_do_diff1_dispatch _ _ _ (by decide) (by decide) (by decide)

/-! Helper lemmas evaluating `enforce_bc` and `neighbor` branch by branch. -/

lemma enforce_bc_in_range {bl br : Int} {n : Nat} {l : Int}
    (h0 : 0 ≤ l) (h1 : l < 2 ^ n) : enforce_bc bl br n l = .ok (some l) := by
  unfold enforce_bc
  rw [if_neg (by omega), if_neg (by omega)]

lemma enforce_bc_low_absorb {bl br : Int} {n : Nat} {l : Int}
    (h0 : l < 0) (hb : bl = 0 ∨ bl = 2 ∨ bl = 3 ∨ bl = 4 ∨ bl = 5) :
    enforce_bc bl br n l = .ok none := by
  unfold enforce_bc
  rw [if_pos h0, if_pos hb]

lemma enforce_bc_low_wrap {bl br : Int} {n : Nat} {l : Int}
    (h0 : l < 0) (hbl : bl = 1) (hbr : br = 1) :
    enforce_bc bl br n l = .ok (some (l + 2 ^ n)) := by
  unfold enforce_bc
  rw [if_pos h0, if_neg (by omega), if_pos hbl, if_pos (by omega)]

lemma enforce_bc_low_fault {bl br : Int} {n : Nat} {l : Int}
    (h0 : l < 0) (hbl : bl = 1) (hbr : br ≠ 1) :
    enforce_bc bl br n l = .error bl := by
  unfold enforce_bc
  rw [if_pos h0, if_neg (by omega), if_pos hbl, if_neg (by omega)]

lemma enforce_bc_high_absorb {bl br : Int} {n : Nat} {l : Int}
    (h0 : (2:Int) ^ n ≤ l) (hb : br = 0 ∨ br = 2 ∨ br = 3 ∨ br = 4 ∨ br = 5) :
    enforce_bc bl br n l = .ok none := by
  have hpow : (0:Int) < 2 ^ n := pow_pos (by norm_num) n
  unfold enforce_bc
  rw [if_neg (by omega), if_pos h0, if_pos hb]

lemma enforce_bc_high_wrap {bl br : Int} {n : Nat} {l : Int}
    (h0 : (2:Int) ^ n ≤ l) (hbr : br = 1) (hbl : bl = 1) :
    enforce_bc bl br n l = .ok (some (l - 2 ^ n)) := by
  have hpow : (0:Int) < 2 ^ n := pow_pos (by norm_num) n
  unfold enforce_bc
  rw [if_neg (by omega), if_pos h0, if_neg (by omega), if_pos hbr, if_pos (by omega)]

lemma enforce_bc_high_fault {bl br : Int} {n : Nat} {l : Int}
    (h0 : (2:Int) ^ n ≤ l) (hbr : br = 1) (hbl : bl ≠ 1) :
    enforce_bc bl br n l = .error br := by
  have hpow : (0:Int) < 2 ^ n := pow_pos (by norm_num) n
  unfold enforce_bc
  rw [if_neg (by omega), if_pos h0, if_neg (by omega), if_pos hbr, if_neg (by omega)]

lemma neighbor_of_enforce_some {D : Nat} {bcl bcr : Int} {axis : Fin D} {key : Key D}
    {step x : Int}
    (hE : enforce_bc bcl bcr key.level (key.transl axis + step) = .ok (some x)) :
    neighbor bcl bcr axis key step =
      .ok (some ⟨key.level, Function.update key.transl axis x⟩) := by
  unfold neighbor
  rw [hE]

lemma neighbor_of_enforce_none {D : Nat} {bcl bcr : Int} {axis : Fin D} {key : Key D}
    {step : Int}
    (hE : enforce_bc bcl bcr key.level (key.transl axis + step) = .ok none) :
    neighbor bcl bcr axis key step = .ok none := by
  unfold neighbor
  rw [hE]

lemma neighbor_of_enforce_error {D : Nat} {bcl bcr : Int} {axis : Fin D} {key : Key D}
    {step e : Int}
    (hE : enforce_bc bcl bcr key.level (key.transl axis + step) = .error e) :
    neighbor bcl bcr axis key step = .error e := by
  unfold neighbor
  rw [hE]

/-- Claim C5: `neighbor` translates the axis coordinate by `step`; an
in-range result keeps the level and updates the coordinate; falling below 0
returns the invalid sentinel for left codes `{0,2,3,4,5}` and wraps by
`2^level` for the periodic code 1 (so translation −1 resolves to `2^n − 1`
at the same level); overflow at or past `2^level` behaves symmetrically with
the right code; and a periodic wrap whose opposite side is not periodic is
a fatal internal-consistency fault. -/
theorem neighbor_cases {D : Nat} (bcl bcr : Int) (axis : Fin D) (key : Key D) (step : Int) :
    (0 ≤ key.transl axis + step ∧ key.transl axis + step < 2 ^ key.level →
      neighbor bcl bcr axis key step =
        .ok (some ⟨key.level,
          Function.update key.transl axis (key.transl axis + step)⟩)) ∧
    (key.transl axis + step < 0 ∧ (bcl = 0 ∨ bcl = 2 ∨ bcl = 3 ∨ bcl = 4 ∨ bcl = 5) →
      neighbor bcl bcr axis key step = .ok none) ∧
    (key.transl axis + step < 0 ∧ bcl = 1 ∧ bcr = 1 →
      neighbor bcl bcr axis key step =
        .ok (some ⟨key.level,
          Function.update key.transl axis (key.transl axis + step + 2 ^ key.level)⟩)) ∧
    ((2:Int) ^ key.level ≤ key.transl axis + step ∧
        (bcr = 0 ∨ bcr = 2 ∨ bcr = 3 ∨ bcr = 4 ∨ bcr = 5) →
      neighbor bcl bcr axis key step = .ok none) ∧
    ((2:Int) ^ key.level ≤ key.transl axis + step ∧ bcr = 1 ∧ bcl = 1 →
      neighbor bcl bcr axis key step =
        .ok (some ⟨key.level,
          Function.update key.transl axis (key.transl axis + step - 2 ^ key.level)⟩)) ∧
    (key.transl axis + step < 0 ∧ bcl = 1 ∧ bcr ≠ 1 →
      neighbor bcl bcr axis key step = .error bcl) ∧
    ((2:Int) ^ key.level ≤ key.transl axis + step ∧ bcr = 1 ∧ bcl ≠ 1 →
      neighbor bcl bcr axis key step = .error bcr) ∧
    (step = -1 ∧ key.transl axis = 0 ∧ bcl = 1 ∧ bcr = 1 →
      neighbor bcl bcr axis key step =
        .ok (some ⟨key.level,
          Function.update key.transl axis (2 ^ key.level - 1)⟩)) := by
  refine ⟨fun h => ?_, fun h => ?_, fun h => ?_, fun h => ?_, fun h => ?_,
    fun h => ?_, fun h => ?_, fun h => ?_⟩
  · exact neighbor_of_enforce_some (enforce_bc_in_range h.1 h.2)
  · exact neighbor_of_enforce_none (enforce_bc_low_absorb h.1 h.2)
  · exact neighbor_of_enforce_some (enforce_bc_low_wrap h.1 h.2.1 h.2.2)
  · exact neighbor_of_enforce_none (enforce_bc_high_absorb h.1 h.2)
  · exact neighbor_of_enforce_some (enforce_bc_high_wrap h.1 h.2.1 h.2.2)
  · exact neighbor_of_enforce_error (enforce_bc_low_fault h.1 h.2.1 h.2.2)
  · exact neighbor_of_enforce_error (enforce_bc_high_fault h.1 h.2.1 h.2.2)
  · obtain ⟨hs, ht, hbl, hbr⟩ := h
    have hE : enforce_bc bcl bcr key.level (key.transl axis + step)
        = .ok (some (2 ^ key.level - 1)) := by
      have h2 : key.transl axis + step + 2 ^ key.level = 2 ^ key.level - 1 := by omega
      have h3 : enforce_bc bcl bcr key.level (key.transl axis + step)
          = .ok (some (key.transl axis + step + 2 ^ key.level)) :=
        enforce_bc_low_wrap (by omega) hbl hbr
      rw [h3, h2]
    exact neighbor_of_enforce_some hE

/-- Witness for claim C5: at level 1 with translation 0 on a periodic axis,
the step −1 wraps to translation `2^1 − 1 = 1`. -/
theorem neighbor_cases_witness :
    neighbor 1 1 ax0 key0 (-1) =
      .ok (some ⟨key0.level, Function.update key0.transl ax0 (2 ^ key0.level - 1)⟩) :=
  (neighbor_cases 1 1 ax0 key0 (-1)).2.2.2.2.2.2.2 ⟨rfl, rfl, rfl, rfl⟩

/-- Claim C8: stepping right then left returns the original key whenever the
original translation is in `[0, 2^level)` and, if the right step crosses the
domain edge, that edge is periodic on both sides (so neither step crosses a
non-periodic boundary). -/
theorem neighbor_roundtrip {D : Nat} (bcl bcr : Int) (axis : Fin D) (key : Key D)
    (h0 : 0 ≤ key.transl axis) (h1 : key.transl axis < 2 ^ key.level)
    (hp : key.transl axis + 1 = 2 ^ key.level → bcl = 1 ∧ bcr = 1) :
    neighbor2 bcl bcr axis key 1 (-1) = .ok (some key) := by
  by_cases hN : key.transl axis + 1 = 2 ^ key.level
  · obtain ⟨hbl, hbr⟩ := hp hN
    have s1 : neighbor bcl bcr axis key 1 =
        .ok (some ⟨key.level, Function.update key.transl axis
          (key.transl axis + 1 - 2 ^ key.level)⟩) :=
      neighbor_of_enforce_some (enforce_bc_high_wrap (by omega) hbr hbl)
    have s2 : neighbor bcl bcr axis
        (⟨key.level, Function.update key.transl axis
          (key.transl axis + 1 - 2 ^ key.level)⟩ : Key D) (-1) = .ok (some key) := by
      have hx : (Function.update key.transl axis
          (key.transl axis + 1 - 2 ^ key.level)) axis + (-1) = -1 := by
        rw [Function.update_same]; omega
      have h4 : neighbor bcl bcr axis
          (⟨key.level, Function.update key.transl axis
            (key.transl axis + 1 - 2 ^ key.level)⟩ : Key D) (-1)
          = .ok (some ⟨key.level, Function.update (Function.update key.transl axis
            (key.transl axis + 1 - 2 ^ key.level)) axis (-1 + 2 ^ key.level)⟩) :=
        neighbor_of_enforce_some
          (by rw [hx]; exact enforce_bc_low_wrap (by omega) hbl hbr)
      rw [h4]
      have hkey : Function.update (Function.update key.transl axis
          (key.transl axis + 1 - 2 ^ key.level)) axis (-1 + 2 ^ key.level)
          = key.transl := by
        rw [Function.update_idem]
        have : -1 + (2:Int) ^ key.level = key.transl axis := by omega
        rw [this, Function.update_eq_self]
      rw [hkey]
    rw [neighbor2, s1]
    exact s2
  · have s1 : neighbor bcl bcr axis key 1 =
        .ok (some ⟨key.level, Function.update key.transl axis (key.transl axis + 1)⟩) :=
      neighbor_of_enforce_some (enforce_bc_in_range (by omega) (by omega))
    have s2 : neighbor bcl bcr axis
        (⟨key.level, Function.update key.transl axis (key.transl axis + 1)⟩ : Key D)
        (-1) = .ok (some key) := by
      have hx : (Function.update key.transl axis (key.transl axis + 1)) axis + (-1)
          = key.transl axis := by
        rw [Function.update_same]; omega
      have h4 : neighbor bcl bcr axis
          (⟨key.level, Function.update key.transl axis (key.transl axis + 1)⟩ : Key D)
          (-1)
          = .ok (some ⟨key.level, Function.update (Function.update key.transl axis
            (key.transl axis + 1)) axis (key.transl axis)⟩) :=
        neighbor_of_enforce_some (by rw [hx]; exact enforce_bc_in_range h0 h1)
      rw [h4]
      rw [Function.update_idem, Function.update_eq_self]
    rw [neighbor2, s1]
    exact s2

/-- Witness for claim C8: at level 1, translation 0, zero-Dirichlet codes,
the right-then-left round trip returns the original key. -/
theorem neighbor_roundtrip_witness :
    neighbor2 0 0 ax0 key0 1 (-1) = .ok (some key0) :=
  neighbor_roundtrip 0 0 ax0 key0 (by decide) (by decide) (by decide)

/-- Claim C3: when a flank is still empty, `do_diff1` marks the destination
node at `key` internal/empty and recurses into every child, handing an
even-translation child (along the axis) the triple (left flank, parent
center, parent center) and an odd-translation child (parent center, parent
center, right flank); when neither flank is empty it forwards the triple
unchanged. -/
theorem do_diff1_recursion {k D : Nat} (axis : Fin D) (key : Key D)
    (left center right : ArgT k D) :
    (left.2.size = 0 ∨ right.2.size = 0 →
      (do_diff1 axis key left center right).stored = some ⟨.empty, true⟩ ∧
      (do_diff1 axis key left center right).calls
        = (children key).map (fun child =>
            if child.transl axis % 2 = 0 then (child, left, center, center)
            else (child, center, center, right)) ∧
      (∀ child ∈ children key, child.transl axis % 2 = 0 →
        (child, left, center, center) ∈ (do_diff1 axis key left center right).calls) ∧
      (∀ child ∈ children key, child.transl axis % 2 ≠ 0 →
        (child, center, center, right) ∈ (do_diff1 axis key left center right).calls)) ∧
    (left.2.size ≠ 0 → right.2.size ≠ 0 →
      (do_diff1 axis key left center right).stored = none ∧
      (do_diff1 axis key left center right).calls = [(key, left, center, right)]) := by
  constructor
  · intro h
    rw [do_diff1, if_pos h]
    refine ⟨rfl, rfl, ?_, ?_⟩
    · intro child hchild hpar
      exact List.mem_map.mpr ⟨child, hchild, by simp [hpar]⟩
    · intro child hchild hpar
      exact List.mem_map.mpr ⟨child, hchild, by simp [hpar]⟩
  · intro hl hr
    rw [do_diff1, if_neg (by tauto)]
    exact ⟨rfl, rfl⟩

/-- Witness for claim C3: with an empty left flank the destination node is
marked internal/empty, and with both flanks full the triple is forwarded
unchanged. -/
theorem do_diff1_recursion_witness :
    (do_diff1 ax0 key0 ((none, .empty) : ArgT 1 1) (some key0, .full (zeroBlk 1 1))
        (some key1, .full (zeroBlk 1 1))).stored = some ⟨.empty, true⟩ ∧
    (do_diff1 ax0 key0 ((some key1, .full (zeroBlk 1 1)) : ArgT 1 1)
        (some key0, .full (zeroBlk 1 1)) (some key1, .full (zeroBlk 1 1))).calls
      = [(key0, ((some key1, .full (zeroBlk 1 1)) : ArgT 1 1),
          (some key0, .full (zeroBlk 1 1)), (some key1, .full (zeroBlk 1 1)))] :=
  ⟨((do_diff1_recursion ax0 key0 ((none, .empty) : ArgT 1 1)
      (some key0, .full (zeroBlk 1 1)) (some key1, .full (zeroBlk 1 1))).1
      (Or.inl rfl)).1,
    ((do_diff1_recursion ax0 key0 ((some key1, .full (zeroBlk 1 1)) : ArgT 1 1)
      (some key0, .full (zeroBlk 1 1)) (some key1, .full (zeroBlk 1 1))).2
      (by decide) (by decide)).2⟩

/-- Dimension swap with itself is the identity permutation of indices. -/
lemma Blk.swapA_zero {k D : Nat} [NeZero D] (B : Blk k D) : B.swapA 0 = B := by
  funext v
  simp [Blk.swapA, Equiv.swap_self]

/-- Claim C4: `do_diff2i` stores at `key` a leaf block equal to `rp`
contracted (over the differentiation axis, via the swap to dimension 0)
with the parent-to-child refinement of the left block, plus `r0` with the
refinement of the center block, plus `rm` with the refinement of the right
block, restored to the original axis ordering and scaled by the
domain-width factor of the axis times `2^level`. -/
theorem do_diff2i_formula {k D : Nat} [NeZero D] (c : DerivCtx k D) (key : Key D)
    (left center right : ArgT k D) (nl nr : Option (Key D))
    (hnl : neighbor c.bcl c.bcr c.axis key (-1) = .ok nl)
    (hnr : neighbor c.bcl c.bcr c.axis key 1 = .ok nr) :
    do_diff2i c key left center right = .ok (key,
      ⟨.full ((((((innerMat c.rp ((c.p2c left.2 left.1 nl).swapA c.axis)).add
          (innerMat c.r0 ((c.p2c center.2 center.1 (some key)).swapA c.axis))).add
          (innerMat c.rm ((c.p2c right.2 right.1 nr).swapA c.axis))).swapA
            c.axis).scale (c.rcw c.axis * 2 ^ key.level))),
        false⟩) := by
  simp only [do_diff2i, hnl, hnr]
  by_cases h : c.axis = 0
  · simp [h, Blk.swapA_zero]
  · simp only [if_neg h]

/-- Witness for claim C4: the interior stencil formula at a concrete
context, key and blocks, with the left flank out of domain and the right
flank in range. -/
theorem do_diff2i_formula_witness :
    do_diff2i ctx0 key0 ((none, .full (zeroBlk 1 1)) : ArgT 1 1)
      (some key0, .full (zeroBlk 1 1)) (some key1, .full (zeroBlk 1 1)) = .ok (key0,
      ⟨.full ((((((innerMat ctx0.rp ((ctx0.p2c (.full (zeroBlk 1 1)) none none).swapA
          ctx0.axis)).add
          (innerMat ctx0.r0 ((ctx0.p2c (.full (zeroBlk 1 1)) (some key0)
            (some key0)).swapA ctx0.axis))).add
          (innerMat ctx0.rm ((ctx0.p2c (.full (zeroBlk 1 1)) (some key1)
            (some key1)).swapA ctx0.axis))).swapA
            ctx0.axis).scale (ctx0.rcw ctx0.axis * 2 ^ key0.level))),
        false⟩) :=
  do_diff2i_formula ctx0 key0 _ _ _ none (some key1) (by rfl) (by rfl)


/-- Claim C6: `do_diff2b` consults the boundary-value function (`g1` on the
left edge, `g2` on the right edge) if and only if that edge's code is
non-homogeneous (neither periodic 1 nor free 2); with a homogeneous code the
boundary contribution is zero, processing stops after the one-sided stencil
store, and neither boundary-value function is consulted. -/
theorem do_diff2b_boundary_query {k D : Nat} [NeZero D] [NeZero k]
    (c : DerivCtx k D) (key : Key D) (left center right : ArgT k D)
    (nbr : Option (Key D))
    (hnbr : (if key.transl c.axis = 0 then neighbor c.bcl c.bcr c.axis key 1
      else neighbor c.bcl c.bcr c.axis key (-1)) = .ok nbr) :
    ∃ out : Diff2bOut k D, do_diff2b c key left center right = .ok out ∧
      (key.transl c.axis = 0 →
        (out.queriedG1 = true ↔ (c.bcl ≠ 1 ∧ c.bcl ≠ 2)) ∧
        out.queriedG2 = false ∧
        ((c.bcl = 1 ∨ c.bcl = 2) → out.store2 = none) ∧
        ((c.bcl ≠ 1 ∧ c.bcl ≠ 2) → out.store2.isSome = true)) ∧
      (key.transl c.axis ≠ 0 →
        (out.queriedG2 = true ↔ (c.bcr ≠ 1 ∧ c.bcr ≠ 2)) ∧
        out.queriedG1 = false ∧
        ((c.bcr = 1 ∨ c.bcr = 2) → out.store2 = none) ∧
        ((c.bcr ≠ 1 ∧ c.bcr ≠ 2) → out.store2.isSome = true)) := by
  simp only [do_diff2b, hnbr]
  by_cases h0 : key.transl c.axis = 0
  · simp only [if_pos h0]
    by_cases hb : c.bcl ≠ 1 ∧ c.bcl ≠ 2
    · rw [if_pos hb]
      refine ⟨_, rfl, fun _ => ?_, fun hne => absurd h0 hne⟩
      exact ⟨iff_of_true rfl hb, rfl, fun hc => absurd hc (by tauto), fun _ => rfl⟩
    · rw [if_neg hb]
      refine ⟨_, rfl, fun _ => ?_, fun hne => absurd h0 hne⟩
      exact ⟨iff_of_false (by simp) hb, rfl, fun _ => rfl, fun hc => absurd hc hb⟩
  · simp only [if_neg h0]
    by_cases hb : c.bcr ≠ 1 ∧ c.bcr ≠ 2
    · rw [if_pos hb]
      refine ⟨_, rfl, fun heq => absurd heq h0, fun _ => ?_⟩
      exact ⟨iff_of_true rfl hb, rfl, fun hc => absurd hc (by tauto), fun _ => rfl⟩
    · rw [if_neg hb]
      refine ⟨_, rfl, fun heq => absurd heq h0, fun _ => ?_⟩
      exact ⟨iff_of_false (by simp) hb, rfl, fun _ => rfl, fun hc => absurd hc hb⟩

/-- Witness for claim C6: a concrete left-edge task with zero-Dirichlet left
code (non-homogeneous in the code's sense) queries `g1` and stores the
boundary contribution. -/
theorem do_diff2b_boundary_query_witness :
    ∃ out : Diff2bOut 1 1, do_diff2b ctx0 key0 ((none, .full (zeroBlk 1 1)) : ArgT 1 1)
        (some key0, .full (zeroBlk 1 1)) (some key1, .full (zeroBlk 1 1)) = .ok out ∧
      (key0.transl ctx0.axis = 0 →
        (out.queriedG1 = true ↔ (ctx0.bcl ≠ 1 ∧ ctx0.bcl ≠ 2)) ∧
        out.queriedG2 = false ∧
        ((ctx0.bcl = 1 ∨ ctx0.bcl = 2) → out.store2 = none) ∧
        ((ctx0.bcl ≠ 1 ∧ ctx0.bcl ≠ 2) → out.store2.isSome = true)) ∧
      (key0.transl ctx0.axis ≠ 0 →
        (out.queriedG2 = true ↔ (ctx0.bcr ≠ 1 ∧ ctx0.bcr ≠ 2)) ∧
        out.queriedG1 = false ∧
        ((ctx0.bcr = 1 ∨ ctx0.bcr = 2) → out.store2 = none) ∧
        ((ctx0.bcr ≠ 1 ∧ ctx0.bcr ≠ 2) → out.store2.isSome = true)) :=
  do_diff2b_boundary_query ctx0 key0 _ _ _ (some key1) (by rfl)

/-- Claim C7: the scalar operator raises a fatal error, scheduling nothing,
when the source is compressed and `fence=false`; with `fence=true` it first
reconstructs the source and then proceeds; and the source is never mutated
apart from that reconstruction. -/
theorem derivOp_precondition {k D : Nat} (f : SrcFn k D) :
    (f.compressed = true → derivOp f false = .error ()) ∧
    (f.compressed = true →
      derivOp f true = .ok ({ f with compressed := false },
        impldiff { f with compressed := false } true)) ∧
    (f.compressed = false → ∀ fence, derivOp f fence = .ok (f, impldiff f fence)) ∧
    (∀ fence res, derivOp f fence = .ok res →
      res.1 = f ∨ (f.compressed = true ∧ res.1 = { f with compressed := false })) := by
  refine ⟨fun h => ?_, fun h => ?_, fun h fence => ?_, fun fence res h => ?_⟩
  · simp [derivOp, h]
  · simp [derivOp, h]
  · simp [derivOp, h]
  · by_cases hc : f.compressed = true
    · cases fence with
      | false =>
        rw [derivOp, if_pos hc, if_neg (by simp)] at h
        exact absurd h (by simp)
      | true =>
        rw [derivOp, if_pos hc, if_pos rfl] at h
        right
        refine ⟨hc, ?_⟩
        have := congrArg Prod.fst (Except.ok.inj h)
        exact this.symm
    · rw [derivOp, if_neg hc] at h
      left
      have := congrArg Prod.fst (Except.ok.inj h)
      exact this.symm

/-- Witness for claim C7: a concrete compressed source with `fence=false` is
rejected outright. -/
theorem derivOp_precondition_witness :
    derivOp (⟨true, []⟩ : SrcFn 1 1) false = .error () :=
  (derivOp_precondition (⟨true, []⟩ : SrcFn 1 1)).1 rfl

/-- One step of the predicted fence positions. -/
lemma chunkTrace_succ (chunk i n : Nat) :
    chunkTrace chunk i (n + 1) =
      (if (i + 1) % chunk = 0 then [VEv.chunkFence] else []) ++
        chunkTrace chunk (i + 1) n := by
  unfold chunkTrace
  rw [List.range_succ_eq_map, List.filterMap_cons, List.filterMap_map]
  have hfun : ((fun j => if (i + j + 1) % chunk = 0 then some VEv.chunkFence else none)
      ∘ Nat.succ)
      = fun j => if ((i + 1) + j + 1) % chunk = 0 then some VEv.chunkFence else none := by
    funext j
    have harg : i + Nat.succ j + 1 = (i + 1) + j + 1 := by omega
    simp [Function.comp, harg]
  rw [hfun]
  by_cases h : (i + 1) % chunk = 0
  · rw [if_pos (show (i + 0 + 1) % chunk = 0 by simpa using h), if_pos h,
      List.singleton_append]
  · rw [if_neg (show ¬ (i + 0 + 1) % chunk = 0 by simpa using h), if_neg h,
      List.nil_append]

/-- The loop of the vector form, fully evaluated on non-compressed inputs. -/
lemma derivOpVecAux_ok {k D : Nat} (chunk : Nat) (l : List (SrcFn k D)) (i : Nat)
    (h : ∀ f ∈ l, f.compressed = false) :
    derivOpVecAux chunk l i =
      .ok (l.map (fun f => (f, impldiff f false)), chunkTrace chunk i l.length) := by
  induction l generalizing i with
  | nil => simp [derivOpVecAux, chunkTrace]
  | cons f rest ih =>
    have hf : f.compressed = false := h f (by simp)
    have hrest : ∀ g ∈ rest, g.compressed = false := fun g hg => h g (by simp [hg])
    have hder : derivOp f false = .ok (f, impldiff f false) := by simp [derivOp, hf]
    rw [derivOpVecAux, hder, ih (i + 1) hrest]
    simp [chunkTrace_succ]

/-- Claim C9: on reconstructed inputs the vector form returns, element-wise,
exactly the scalar form's result at `fence=false`, issues an intermediate
fence after every completed chunk regardless of the fence argument, and a
final fence exactly when `fence=true`. -/
theorem derivOpVec_spec {k D : Nat} (chunk : Nat) (vf : List (SrcFn k D)) (fence : Bool)
    (h : ∀ f ∈ vf, f.compressed = false) :
    derivOpVec chunk vf fence =
      .ok (vf.map (fun f => (f, impldiff f false)),
        chunkTrace chunk 0 vf.length ++ if fence then [VEv.finalFence] else []) ∧
    ∀ f ∈ vf, derivOp f false = .ok (f, impldiff f false) := by
  constructor
  · rw [derivOpVec, derivOpVecAux_ok chunk vf 0 h]
  · intro f hf
    simp [derivOp, h f hf]

/-- Witness for claim C9: a two-element vector of reconstructed sources with
chunk size 1 fences after each element and at the end. -/
theorem derivOpVec_spec_witness :
    (derivOpVec 1 [(⟨false, []⟩ : SrcFn 1 1), ⟨false, []⟩] true =
      .ok ([(⟨false, []⟩ : SrcFn 1 1), ⟨false, []⟩].map (fun f => (f, impldiff f false)),
        chunkTrace 1 0 [(⟨false, []⟩ : SrcFn 1 1), ⟨false, []⟩].length ++
          if true then [VEv.finalFence] else [])) ∧
    ∀ f ∈ [(⟨false, []⟩ : SrcFn 1 1), ⟨false, []⟩],
      derivOp f false = .ok (f, impldiff f false) :=
  derivOpVec_spec 1 [⟨false, []⟩, ⟨false, []⟩] true
    (by intro f hf; simp at hf; subst hf; rfl)

/-- Claim C10: an out-of-domain neighbor yields an already-fulfilled future
holding the invalid key and the zero-filled full-shape block; that block has
nonzero size, so the empty-block recursion of `do_diff1` is never triggered
by it and the node is dispatched to the boundary path `do_diff2b`. -/
theorem find_neighbor_invalid_path {k D : Nat} [NeZero k] (bcl bcr : Int)
    (axis : Fin D) (key : Key D) (step : Int)
    (hinv : neighbor bcl bcr axis key step = .ok none) :
    find_neighbor k bcl bcr axis key step
      = .ok (.immediate (none, .full (zeroBlk k D))) ∧
    (CoeffT.full (zeroBlk k D)).size ≠ 0 ∧
    (∀ center right : ArgT k D, right.2.size ≠ 0 →
      forward_do_diff1 true ((none, .full (zeroBlk k D)) : ArgT k D) center right
        = .diff2b) ∧
    (∀ left center : ArgT k D, left.2.size ≠ 0 →
      forward_do_diff1 true left center ((none, .full (zeroBlk k D)) : ArgT k D)
        = .diff2b) ∧
    (∀ center right : ArgT k D, right.2.size ≠ 0 →
      (do_diff1 axis key ((none, .full (zeroBlk k D)) : ArgT k D) center right).stored
        = none ∧
      (do_diff1 axis key ((none, .full (zeroBlk k D)) : ArgT k D) center right).calls
        = [(key, ((none, .full (zeroBlk k D)) : ArgT k D), center, right)]) := by
  have hk : 0 < k := Nat.pos_of_ne_zero (NeZero.ne k)
  have hsz : (CoeffT.full (zeroBlk k D)).size ≠ 0 := by
    simp only [CoeffT.size]
    exact Nat.pos_iff_ne_zero.mp (pow_pos hk D)
  refine ⟨?_, hsz, ?_, ?_, ?_⟩
  · rw [find_neighbor, hinv]
  · intro center right hr
    rw [forward_do_diff1, if_pos rfl, if_neg hsz, if_neg hr, if_pos (by simp)]
  · intro left center hl
    rw [forward_do_diff1, if_pos rfl, if_neg hl, if_neg hsz, if_pos (by simp)]
  · intro center right hr
    rw [do_diff1, if_neg (by push_neg; exact ⟨hsz, hr⟩)]
    exact ⟨rfl, rfl⟩

/-- Witness for claim C10: at level 0 the right step leaves the unit domain
under a zero-Dirichlet right code, and the resulting invalid-neighbor pair
is dispatched to the boundary path. -/
theorem find_neighbor_invalid_path_witness :
    find_neighbor 1 0 0 ax0 key00 1
      = .ok (.immediate (none, .full (zeroBlk 1 1))) ∧
    (CoeffT.full (zeroBlk 1 1)).size ≠ 0 ∧
    (∀ center right : ArgT 1 1, right.2.size ≠ 0 →
      forward_do_diff1 true ((none, .full (zeroBlk 1 1)) : ArgT 1 1) center right
        = .diff2b) ∧
    (∀ left center : ArgT 1 1, left.2.size ≠ 0 →
      forward_do_diff1 true left center ((none, .full (zeroBlk 1 1)) : ArgT 1 1)
        = .diff2b) ∧
    (∀ center right : ArgT 1 1, right.2.size ≠ 0 →
      (do_diff1 ax0 key00 ((none, .full (zeroBlk 1 1)) : ArgT 1 1) center right).stored
        = none ∧
      (do_diff1 ax0 key00 ((none, .full (zeroBlk 1 1)) : ArgT 1 1) center right).calls
        = [(key00, ((none, .full (zeroBlk 1 1)) : ArgT 1 1), center, right)]) :=
  find_neighbor_invalid_path 0 0 ax0 key00 1 (by rfl)

end Madness
